import Mathlib

/-!
Verification of the `nyaxt/webpackage` Go reference implementation of
Signed HTTP Exchanges and Bundled HTTP Exchanges.

The development shallowly embeds the Go sources under `go/signedexchange`
and `go/bundle`.  Go byte slices and Go strings are both modelled as
`List Nat` (byte lists; all strings involved are ASCII).  Machine
integers are modelled as `Nat`/`Int` with explicit truncation where the
code truncates.  Fallible operations return `Except Err`.

The repository's `cbor` and `mice` packages, the bundle-level
`Exchange` type, and the Go standard-library collaborators
(`net/http.Header`, `strings`, `strconv`, `encoding/base64`,
`encoding/asn1`, `math/big.Int.BitLen`, crypto hashing and signing)
are not part of the provided sources; they are modelled from the
specification, which treats the cryptographic primitives as external
collaborators.  Each such definition carries a doc comment saying so.
-/

/-- Go strings are ASCII byte lists here; `str` turns a Lean string literal
into its byte list. -/
def str (s : String) : List Nat :=
  s.data.map Char.toNat

/-- Big-endian byte serialization of `v` into exactly `k` bytes
(the low `8*k` bits of `v`, matching Go `binary.BigEndian`). -/
def beBytes : Nat → Nat → List Nat
  | 0, _ => []
  | k + 1, v => (v / 256 ^ k) % 256 :: beBytes k v

/-- Big-endian value of a byte list (reading back what `beBytes` wrote). -/
def beValue (bs : List Nat) : Nat :=
  bs.foldl (fun a b => a * 256 + b) 0

/-- Lowercase a byte, mapping ASCII `A`–`Z` to `a`–`z` (model of the ASCII
case of Go `strings.ToLower`, an external stdlib collaborator). -/
def lowerN (c : Nat) : Nat :=
  if 65 ≤ c ∧ c ≤ 90 then c + 32 else c

/-- Uppercase a byte, mapping ASCII `a`–`z` to `A`–`Z`. -/
def upperN (c : Nat) : Nat :=
  if 97 ≤ c ∧ c ≤ 122 then c - 32 else c

/-- Lowercase a byte string. -/
def lowerB (s : List Nat) : List Nat :=
  s.map lowerN

theorem lowerN_upperN (c : Nat) : lowerN (upperN c) = lowerN c := by
  unfold lowerN upperN
  split_ifs <;> omega

theorem lowerN_lowerN (c : Nat) : lowerN (lowerN c) = lowerN c := by
  unfold lowerN
  split_ifs <;> omega

/-- Model of Go `math/big.Int.BitLen` for non-negative values (external
stdlib collaborator): the length of the absolute value in bits, `0` for `0`. -/
def goBitLen (n : Nat) : Nat :=
  if n = 0 then 0 else Nat.log2 n + 1

theorem goBitLen_two_pow (k : Nat) : goBitLen (2 ^ k) = k + 1 := by
  unfold goBitLen
  rw [if_neg (Nat.pos_iff_ne_zero.mp (Nat.pos_pow_of_pos k (by omega)))]
  rw [Nat.log2_eq_log_two, Nat.log_pow (by omega)]

/-- Decimal digit bytes with explicit fuel. -/
def natDecAux : Nat → Nat → List Nat
  | 0, _ => []
  | fuel + 1, n => if n < 10 then [48 + n] else natDecAux fuel (n / 10) ++ [48 + n % 10]

/-- Decimal digit bytes of a natural number (`"0"` for zero). -/
def natDec (n : Nat) : List Nat :=
  natDecAux (n + 1) n

/-- Model of Go `strconv.Itoa` (external stdlib collaborator): decimal
representation, with a leading `-` for negative values. -/
def goItoa (i : Int) : List Nat :=
  if i < 0 then 45 :: natDec i.natAbs else natDec i.toNat

/-- Modelled from the spec: the repository's `cbor` package is not under the
provided sources.  Shortest-form CBOR item header for major type `major`
with argument `n` (RFC 7049 §3.9 as restated in the spec's CBOR-codec
section): 0–23 inline, then 1-, 2-, 4- or 8-byte big-endian arguments. -/
def cborTypeHeader (major n : Nat) : List Nat :=
  if n < 24 then [major * 32 + n]
  else if n < 256 then [major * 32 + 24, n]
  else if n < 65536 then (major * 32 + 25) :: beBytes 2 n
  else if n < 4294967296 then (major * 32 + 26) :: beBytes 4 n
  else (major * 32 + 27) :: beBytes 8 n

/-- Modelled from the spec: `cbor.Encoder.EncodeUInt` — canonical unsigned
integer (major type 0). -/
def encodeUInt (n : Nat) : List Nat :=
  cborTypeHeader 0 n

/-- Modelled from the spec: `cbor.Encoder.EncodeInt` — positive values use
major type 0, negative values major type 1 with argument `-1 - n`. -/
def encodeInt (i : Int) : List Nat :=
  if 0 ≤ i then cborTypeHeader 0 i.toNat else cborTypeHeader 1 (-1 - i).toNat

/-- Modelled from the spec: `cbor.Encoder.EncodeByteString` — major type 2
header followed by the content bytes. -/
def encodeByteString (bs : List Nat) : List Nat :=
  cborTypeHeader 2 bs.length ++ bs

/-- Modelled from the spec: `cbor.Encoder.EncodeTextString` — major type 3
header followed by the (ASCII) content bytes. -/
def encodeTextString (bs : List Nat) : List Nat :=
  cborTypeHeader 3 bs.length ++ bs

/-- Modelled from the spec: `cbor.Encoder.EncodeArrayHeader` — major type 4
header with the element count; the items follow separately. -/
def encodeArrayHeader (n : Nat) : List Nat :=
  cborTypeHeader 4 n

/-- Byte-lexicographic order on encoded keys: shorter before longer when one
is a prefix of the other (the spec's canonical map order). -/
def keyLe : List Nat → List Nat → Bool
  | [], _ => true
  | _ :: _, [] => false
  | a :: as, b :: bs => if a < b then true else if b < a then false else keyLe as bs

/-- Insert into a list sorted by `le` (stable). -/
def insertLe (le : α → α → Bool) (x : α) : List α → List α
  | [] => [x]
  | y :: ys => if le x y then x :: y :: ys else y :: insertLe le x ys

/-- Stable insertion sort by `le`. -/
def sortLe (le : α → α → Bool) : List α → List α
  | [] => []
  | x :: xs => insertLe le x (sortLe le xs)

/-- Modelled from the spec: `cbor.Encoder.EncodeMap` — a map header with the
entry count, followed by the pre-encoded `(key bytes, value bytes)` entries
sorted canonically by their encoded key bytes and concatenated.  The
canonical-order constraint lives here, not in the callers. -/
def encodeMapFromEntries (entries : List (List Nat × List Nat)) : List Nat :=
  cborTypeHeader 5 entries.length ++
    ((sortLe (fun x y => keyLe x.1 y.1) entries).map (fun e => e.1 ++ e.2)).flatten

/-- Standard base64 alphabet (index to ASCII code). -/
def b64CharStd (i : Nat) : Nat :=
  if i < 26 then 65 + i
  else if i < 52 then 97 + (i - 26)
  else if i < 62 then 48 + (i - 52)
  else if i = 62 then 43 else 47

/-- URL-safe base64 alphabet (index to ASCII code). -/
def b64CharUrl (i : Nat) : Nat :=
  if i < 26 then 65 + i
  else if i < 52 then 97 + (i - 26)
  else if i < 62 then 48 + (i - 52)
  else if i = 62 then 45 else 95

/-- Modelled from the spec: Go `encoding/base64` raw (unpadded) encoding,
an external stdlib collaborator; `tbl` selects the alphabet. -/
def b64enc (tbl : Nat → Nat) : List Nat → List Nat
  | a :: b :: c :: rest =>
    tbl (a / 4) :: tbl ((a % 4) * 16 + b / 16) ::
      tbl ((b % 16) * 4 + c / 64) :: tbl (c % 64) :: b64enc tbl rest
  | [a, b] => [tbl (a / 4), tbl ((a % 4) * 16 + b / 16), tbl ((b % 16) * 4)]
  | [a] => [tbl (a / 4), tbl ((a % 4) * 16)]
  | [] => []

/-- `base64.RawStdEncoding.EncodeToString` (no padding). -/
def b64Std (bs : List Nat) : List Nat :=
  b64enc b64CharStd bs

/-- Base64url with no padding, used for the `mi-sha256` digest value. -/
def b64Url (bs : List Nat) : List Nat :=
  b64enc b64CharUrl bs

/-- Minimal big-endian content bytes of a DER INTEGER for a non-negative
value: minimal-length base-256 digits, with a leading zero byte when the
top bit is set (`[0x00]` for zero). -/
def derIntContent (n : Nat) : List Nat :=
  if n = 0 then [0]
  else
    let bytes := beBytes ((goBitLen n + 7) / 8) n
    if 128 ≤ bytes.headD 0 then 0 :: bytes else bytes

/-- DER length octets: short form below 128, long form otherwise. -/
def derLen (l : Nat) : List Nat :=
  if l < 128 then [l]
  else
    let k := (goBitLen l + 7) / 8
    (128 + k) :: beBytes k l

/-- DER INTEGER (tag 0x02) of a non-negative value. -/
def derInt (n : Nat) : List Nat :=
  2 :: derLen (derIntContent n).length ++ derIntContent n

/-- DER SEQUENCE (tag 0x30) with the given content bytes. -/
def derSeq (content : List Nat) : List Nat :=
  48 :: derLen content.length ++ content

/-- Modelled from the spec: Go `encoding/asn1.Marshal` of
`SEQUENCE { INTEGER r, INTEGER s }` (external stdlib collaborator), the
serialization the ECDSA signers produce from the raw `(r, s)` pair. -/
def ecdsaSignBytes (r s : Nat) : List Nat :=
  derSeq (derInt r ++ derInt s)

/-- Bytes allowed in a MIME header field name (Go `net/textproto`'s token
table): digits, letters, and `!#$%&'*+-.^_`|~`. -/
def validHeaderFieldByte (c : Nat) : Bool :=
  (48 ≤ c ∧ c ≤ 57) ∨ (65 ≤ c ∧ c ≤ 90) ∨ (97 ≤ c ∧ c ≤ 122) ∨
    c = 33 ∨ c = 35 ∨ c = 36 ∨ c = 37 ∨ c = 38 ∨ c = 39 ∨ c = 42 ∨ c = 43 ∨
    c = 45 ∨ c = 46 ∨ c = 94 ∨ c = 95 ∨ c = 96 ∨ c = 124 ∨ c = 126

/-- Case-walk of canonicalization: uppercase the first byte and every byte
following a `-` (45), lowercase the rest. -/
def canonWalk : Bool → List Nat → List Nat
  | _, [] => []
  | up, c :: cs =>
    (if up then upperN c else lowerN c) :: canonWalk (c = 45) cs

/-- Modelled from the spec: Go `net/textproto.CanonicalMIMEHeaderKey`
(external stdlib collaborator): canonical capitalization when every byte is
a valid header-field byte, the key unchanged otherwise. -/
def canonKey (k : List Nat) : List Nat :=
  if k.all validHeaderFieldByte then canonWalk true k else k

theorem lowerB_canonWalk (up : Bool) (l : List Nat) :
    lowerB (canonWalk up l) = lowerB l := by
  induction l generalizing up with
  | nil => rfl
  | cons c cs ih =>
    simp only [canonWalk, lowerB, List.map_cons]
    have h2 := ih (c = 45)
    simp only [lowerB] at h2
    rw [h2]
    cases up <;> simp [lowerN_upperN, lowerN_lowerN]

theorem lowerB_canonKey (k : List Nat) : lowerB (canonKey k) = lowerB k := by
  unfold canonKey
  split
  · exact lowerB_canonWalk true k
  · rfl

/-- Modelled from the spec: Go `net/http.Header` (external stdlib
collaborator) as an ordered association list from header key to its list of
values.  Go's map has no order; none of the verified properties depend on
the order. -/
abbrev HeaderM : Type :=
  List (List Nat × List (List Nat))

/-- Append a value under an already-canonicalized key, merging with an
existing entry for that exact key, else appending a new entry. -/
def addVal : HeaderM → List Nat → List Nat → HeaderM
  | [], ck, v => [(ck, [v])]
  | e :: es, ck, v =>
    if e.1 = ck then (e.1, e.2 ++ [v]) :: es else e :: addVal es ck v

/-- `Header.Add`: canonicalize the key, then append the value. -/
def headerAdd (hdr : HeaderM) (k v : List Nat) : HeaderM :=
  addVal hdr (canonKey k) v

/-- First value stored under an already-canonicalized key. -/
def headerGetC : HeaderM → List Nat → List Nat
  | [], _ => []
  | e :: es, ck => if e.1 = ck then e.2.headD [] else headerGetC es ck

/-- `Header.Get`: first value stored under the canonicalized key, empty
when absent. -/
def headerGet (hdr : HeaderM) (k : List Nat) : List Nat :=
  headerGetC hdr (canonKey k)

/-- Number of header values whose key equals `nm` case-insensitively (how
many `nm` headers the header map contains). -/
def countCI (hdr : HeaderM) (nm : List Nat) : Nat :=
  (hdr.map (fun e => if lowerB e.1 = lowerB nm then e.2.length else 0)).sum

theorem countCI_cons (e : List Nat × List (List Nat)) (es : HeaderM)
    (nm : List Nat) :
    countCI (e :: es) nm =
      (if lowerB e.1 = lowerB nm then e.2.length else 0) + countCI es nm := by
  simp [countCI]

theorem countCI_headerAdd (hdr : HeaderM) (k v nm : List Nat) :
    countCI (headerAdd hdr k v) nm =
      countCI hdr nm + (if lowerB k = lowerB nm then 1 else 0) := by
  unfold headerAdd
  have hck : lowerB (canonKey k) = lowerB k := lowerB_canonKey k
  induction hdr with
  | nil => simp [addVal, countCI, hck]
  | cons e es ih =>
    simp only [addVal]
    by_cases h : e.1 = canonKey k
    · rw [if_pos h, countCI_cons, countCI_cons, h, hck]
      by_cases h2 : lowerB k = lowerB nm
      · rw [if_pos h2, if_pos h2, if_pos h2]
        simp only [List.length_append, List.length_cons, List.length_nil]
        omega
      · rw [if_neg h2, if_neg h2, if_neg h2]
        omega
    · rw [if_neg h, countCI_cons, countCI_cons, ih]
      omega

theorem headerGet_headerAdd (hdr : HeaderM) (k v : List Nat)
    (h : countCI hdr k = 0) : headerGet (headerAdd hdr k v) k = v := by
  unfold headerAdd headerGet
  induction hdr with
  | nil => simp [addVal, headerGetC]
  | cons e es ih =>
    rw [countCI_cons] at h
    by_cases hk : e.1 = canonKey k
    · have hlen : e.2.length = 0 := by
        have hl : lowerB e.1 = lowerB k := by rw [hk, lowerB_canonKey]
        rw [if_pos hl] at h
        omega
      have h2 : e.2 = [] := List.eq_nil_of_length_eq_zero hlen
      simp [addVal, headerGetC, hk, h2]
    · have hes : countCI es k = 0 := by omega
      simp only [addVal, if_neg hk, headerGetC]
      exact ih hes

theorem headerGet_headerAdd_other (hdr : HeaderM) (k v nm : List Nat)
    (h : canonKey k ≠ canonKey nm) :
    headerGet (headerAdd hdr k v) nm = headerGet hdr nm := by
  unfold headerAdd headerGet
  induction hdr with
  | nil =>
    simp only [addVal, headerGetC]
    rw [if_neg h]
  | cons e es ih =>
    simp only [addVal]
    by_cases hk : e.1 = canonKey k
    · have hne : e.1 ≠ canonKey nm := by rw [hk]; exact h
      rw [if_pos hk]
      simp only [headerGetC]
      rw [if_neg hne, if_neg hne]
    · simp only [if_neg hk, headerGetC]
      by_cases hn : e.1 = canonKey nm
      · simp [hn]
      · rw [if_neg hn, if_neg hn]
        exact ih

/-- Semantic error kinds surfaced by the core (the Go code returns
formatted error strings; the spec names these kinds). -/
inductive Err
  | unsupportedKeySize (bits : Nat)
  | unknownCurve (name : List Nat)
  | unsupportedKey (typeName : List Nat)
  | magicMismatch
  | truncated (what : List Nat)
  | cborDecode (expected : List Nat)
  | duplicateSection (name : List Nat)
  | offsetOutOfRange (name : List Nat)
  | miceError
  | signingError (msg : List Nat)
deriving DecidableEq, Repr

/-- Split the payload into records of `rm1 + 1` bytes (the record size is
passed minus one so the recursion is well-founded); the last record may be
shorter.  Modelled from the spec: the `mice` package is not under the
provided sources. -/
def miceChunks (rm1 : Nat) : List Nat → List (List Nat)
  | [] => []
  | c :: cs => ((c :: cs).take (rm1 + 1)) :: miceChunks rm1 ((c :: cs).drop (rm1 + 1))
termination_by l => l.length
decreasing_by
  simp only [List.length_drop, List.length_cons]
  omega

/-- Records of a payload for record size `rs` (empty payload gives an empty
record list, per the spec's empty-payload rule). -/
def miceRecords (payload : List Nat) (rs : Nat) : List (List Nat) :=
  miceChunks (rs - 1) payload

/-- Modelled from the spec: the MICE proof chain over records, parameterized
by the hash `h` (SHA-256 is an external collaborator).  `proof[n]` is the
hash of the last record and `proof[i] = h(record[i] ‖ proof[i+1] ‖ 0x00)`;
for an empty record list the digest is the hash of the empty string. -/
def miceProof (h : List Nat → List Nat) : List (List Nat) → List Nat
  | [] => h []
  | [r] => h r
  | r :: r2 :: rest => h (r ++ miceProof h (r2 :: rest) ++ [0])

/-- Top-level MICE digest of a payload. -/
def miceDigest (h : List Nat → List Nat) (payload : List Nat) (rs : Nat) :
    List Nat :=
  miceProof h (miceRecords payload rs)

/-- Modelled from the spec: the interleaved record/proof body of the encoded
payload — `record[0] ‖ proof[1] ‖ record[1] ‖ … ‖ record[n-1]`, with no
trailing proof. -/
def miceBody (h : List Nat → List Nat) : List (List Nat) → List Nat
  | [] => []
  | [r] => r
  | r :: r2 :: rest => r ++ miceProof h (r2 :: rest) ++ miceBody h (r2 :: rest)

/-- Encoded MICE payload: 8-byte big-endian record size, then the body. -/
def miceEncodedBytes (h : List Nat → List Nat) (payload : List Nat)
    (rs : Nat) : List Nat :=
  beBytes 8 rs ++ miceBody h (miceRecords payload rs)

/-- `MI` response-header value: `mi-sha256=` followed by the unpadded
base64url digest. -/
def miValue (h : List Nat → List Nat) (payload : List Nat) (rs : Nat) :
    List Nat :=
  str "mi-sha256=" ++ b64Url (miceDigest h payload rs)

/-- Modelled from the spec: `mice.Encode` — writes the encoded payload and
returns the `MI` header value; a record size of zero is rejected. -/
def miceEncode (h : List Nat → List Nat) (payload : List Nat) (rs : Nat) :
    Except Err (List Nat × List Nat) :=
  if rs = 0 then .error .miceError
  else .ok (miValue h payload rs, miceEncodedBytes h payload rs)

/-- The `Input` record of `go/signedexchange/signedexchange.go`: a request
URI (kept as its serialized string), a response status, the response
headers, and the payload bytes. -/
structure Input where
  requestUri : List Nat
  responseStatus : Int
  responseHeader : HeaderM
  payload : List Nat
deriving DecidableEq

/-- `NewInput` from `signedexchange.go`: build the record, then MICE-encode
the payload in place and add the `Content-Encoding: mi-sha256` and
`MI: <digest>` response headers; `h` is the hash collaborator. -/
def NewInput (h : List Nat → List Nat) (uri : List Nat) (status : Int)
    (headers : HeaderM) (payload : List Nat) (miRecordSize : Nat) :
    Except Err Input := do
  let (mi, enc) ← miceEncode h payload miRecordSize
  .ok { requestUri := uri
        responseStatus := status
        responseHeader :=
          headerAdd (headerAdd headers (str "Content-Encoding")
            (str "mi-sha256")) (str "MI") mi
        payload := enc }

/-- Modelled from the spec: Go `strings.Split(s, ",")` (external stdlib
collaborator) — split at every comma; always returns at least one token. -/
def splitComma : List Nat → List (List Nat)
  | [] => [[]]
  | c :: cs =>
    match splitComma cs with
    | [] => [[]]
    | t :: ts => if c = 44 then [] :: t :: ts else (c :: t) :: ts

/-- Modelled from the spec: Go `strings.TrimPrefix(s, "\"")` — drop one
leading quote when present. -/
def trimLeadQ : List Nat → List Nat
  | 34 :: t => t
  | l => l

/-- Modelled from the spec: Go `strings.TrimSuffix(s, "\"")` — drop one
trailing quote when present. -/
def trimTrailQ (l : List Nat) : List Nat :=
  (trimLeadQ l.reverse).reverse

/-- Modelled from the spec: Go `strings.Join(strs, ", ")`. -/
def joinCS : List (List Nat) → List Nat
  | [] => []
  | [x] => x
  | x :: y :: r => x ++ 44 :: 32 :: joinCS (y :: r)

/-- `Input.AddSignedHeadersHeader` from `signedexchange.go`: add a
`signed-headers` response header whose value joins the quoted, lowercased
names with `", "`. -/
def addSignedHeadersHeader (i : Input) (ks : List (List Nat)) : Input :=
  { i with
    responseHeader :=
      headerAdd i.responseHeader (str "signed-headers")
        (joinCS (ks.map (fun k => 34 :: (lowerB k ++ [34])))) }

/-- `Input.parseSignedHeadersHeader` from `signedexchange.go`: split the
`signed-headers` value at commas, then trim one leading and one trailing
quote from each token. -/
def parseSignedHeadersHeader (i : Input) : List (List Nat) :=
  (splitComma (headerGet i.responseHeader (str "signed-headers"))).map
    (fun k => trimTrailQ (trimLeadQ k))

/-- `encodeCanonicalRequest` from `signedexchange.go`: the canonical request
map with byte-string keys `:method` → `GET` and `:url` → the request URI. -/
def encodeCanonicalRequestBytes (i : Input) : List Nat :=
  encodeMapFromEntries
    [(encodeByteString (str ":method"), encodeByteString (str "GET")),
     (encodeByteString (str ":url"), encodeByteString i.requestUri)]

/-- The map-entry list built by `encodeResponseHeader` in
`signedexchange.go` before canonical sorting: the `:status` entry first,
then, in header order, one entry per response header accepted by `filter`,
with the key lowercased and the first stored value as the value. -/
def responseHeaderEntries (i : Input) (filter : List Nat → Bool) :
    List (List Nat × List Nat) :=
  i.responseHeader.foldl
    (fun acc e =>
      if filter e.1 then
        acc ++ [(encodeByteString (lowerB e.1), encodeByteString (e.2.headD []))]
      else acc)
    [(encodeByteString (str ":status"),
      encodeByteString (goItoa i.responseStatus))]

/-- `encodeResponseHeader` from `signedexchange.go`: the canonical CBOR map
over those entries. -/
def encodeResponseHeaderBytes (i : Input) (filter : List Nat → Bool) :
    List Nat :=
  encodeMapFromEntries (responseHeaderEntries i filter)

/-- The filter used by `encodeCanonicalExchangeHeaders`: membership of the
header key, exactly as stored, in the parsed `signed-headers` list. -/
def signedHeadersFilter (i : Input) : List Nat → Bool :=
  fun name => (parseSignedHeadersHeader i).any (· == name)

/-- `encodeCanonicalExchangeHeaders` from `signedexchange.go`: a 2-element
array of the canonical request map and the response-header map filtered by
the `signed-headers` list. -/
def encodeCanonicalExchangeHeadersBytes (i : Input) : List Nat :=
  encodeArrayHeader 2 ++ encodeCanonicalRequestBytes i ++
    encodeResponseHeaderBytes i (signedHeadersFilter i)

/-- Private keys as the signing dispatch distinguishes them (from
`signingalgorithm.go`, with `crypto` key material as an external
collaborator): an RSA key with its modulus, an ECDSA key with its curve
name, or some other key type. -/
inductive PrivateKey
  | rsa (n : Nat)
  | ecdsa (curveName : List Nat)
  | other (typeName : List Nat)
deriving DecidableEq

/-- Hash selected by the dispatch. -/
inductive HashAlg
  | sha256
  | sha384
deriving DecidableEq, Repr

/-- Signing algorithm chosen by `signerForPrivateKey` (the Go values also
carry the private key; the PSS salt length equals the hash length). -/
inductive SigAlg
  | rsaPSS (n : Nat) (hash : HashAlg)
  | ecdsaAlg (curveName : List Nat) (hash : HashAlg)
deriving DecidableEq

/-- `signerForPrivateKey` / `SigningAlgorithmForPrivateKey` from
`signingalgorithm.go`: RSA keys need a modulus of exactly 2048 bits and get
RSA-PSS with SHA-256; ECDSA P-256 gets SHA-256 and P-384 gets SHA-384;
everything else fails with the matching error kind. -/
def signerForPrivateKey : PrivateKey → Except Err SigAlg
  | .rsa n =>
    if goBitLen n = 2048 then .ok (.rsaPSS n .sha256)
    else .error (.unsupportedKeySize (goBitLen n))
  | .ecdsa name =>
    if name = str "P-256" then .ok (.ecdsaAlg name .sha256)
    else if name = str "P-384" then .ok (.ecdsaAlg name .sha384)
    else .error (.unknownCurve name)
  | .other t => .error (.unsupportedKey t)

/-- The `Signer` record of `go/signedexchange/signer.go`: times are unix
seconds, certificates are raw DER byte strings. -/
structure Signer where
  date : Int
  expires : Int
  certs : List (List Nat)
  certUrl : List Nat
  privKey : PrivateKey
deriving DecidableEq

/-- `Signer.certSha256` from `signer.go`: the hash of the first
certificate's DER, or empty when there are no certificates (`h` is the
SHA-256 collaborator). -/
def certSha256 (h : List Nat → List Nat) (s : Signer) : List Nat :=
  if s.certs = [] then [] else h (s.certs.headD [])

/-- `Signer.serializeSignedMessage` from `signer.go`: 64 spaces, the
context string `HTTP Exchange`, a zero byte, then the canonical CBOR map
binding `certSha256` (only when non-empty), `date`, `expires` and
`headers`. -/
def serializeSignedMessage (h : List Nat → List Nat) (s : Signer)
    (i : Input) : List Nat :=
  List.replicate 64 32 ++ str "HTTP Exchange" ++ [0] ++
    encodeMapFromEntries
      ((if (certSha256 h s).length > 0 then
          [(encodeTextString (str "certSha256"),
            encodeByteString (certSha256 h s))]
        else []) ++
       [(encodeTextString (str "date"), encodeInt s.date),
        (encodeTextString (str "expires"), encodeInt s.expires),
        (encodeTextString (str "headers"),
          encodeCanonicalExchangeHeadersBytes i)])

/-- `Signer.sign` from `signer.go`: dispatch on the private key, serialize
the signed message, and invoke the signing primitive (`sigOracle`, the
external crypto collaborator). -/
def signerSign (h : List Nat → List Nat)
    (sigOracle : SigAlg → List Nat → Except Err (List Nat)) (s : Signer)
    (i : Input) : Except Err (List Nat) := do
  let alg ← signerForPrivateKey s.privKey
  sigOracle alg (serializeSignedMessage h s i)

/-- `Signer.SignatureHeaderValue` from `signer.go`: sign, then format the
`Signature` header value with the parameters `sig`, `integrity`,
`certUrl`, `certSha256`, `date`, `expires` (the source has a
`FIXME: validityURL` in place of a validityUrl parameter). -/
def signatureHeaderValue (h : List Nat → List Nat)
    (sigOracle : SigAlg → List Nat → Except Err (List Nat)) (s : Signer)
    (i : Input) : Except Err (List Nat) := do
  let sig ← signerSign h sigOracle s i
  .ok (str "sig=*" ++ b64Std sig ++
    str "; integrity=\"mi\"; certUrl=\"" ++ s.certUrl ++
    str "\"; certSha256=*" ++ b64Std (certSha256 h s) ++
    str "; date=" ++ goItoa s.date ++
    str "; expires=" ++ goItoa s.expires)

/-- Modelled from the spec: the bundle-level `Exchange` record of the
`signedexchange` package is not under the provided sources.  It bundles a
request URL, response status, response headers and payload, and exposes the
canonical request-map and response-header encoders. -/
structure Exchange where
  requestUri : List Nat
  responseStatus : Int
  responseHeaders : List (List Nat × List Nat)
  payload : List Nat
deriving DecidableEq

/-- Modelled from the spec: `Exchange.EncodeRequestWithHeaders` — the
canonical request map used as the bundle index key. -/
def exchangeRequestBytes (e : Exchange) : List Nat :=
  encodeMapFromEntries
    [(encodeByteString (str ":method"), encodeByteString (str "GET")),
     (encodeByteString (str ":url"), encodeByteString e.requestUri)]

/-- Modelled from the spec: `signedexchange.WriteResponseHeaders` — the
canonical response-header map of the exchange without filtering:
`:status`, then one entry per header with the key lowercased. -/
def exchangeResponseHeaderBytes (e : Exchange) : List Nat :=
  encodeMapFromEntries
    ((encodeByteString (str ":status"),
      encodeByteString (goItoa e.responseStatus)) ::
      e.responseHeaders.map
        (fun rh => (encodeByteString (lowerB rh.1), encodeByteString rh.2)))

/-- One element of the responses section (`responsesSection.addExchange` in
`bundle.go`): a 2-element array of the response-header bytes, as a byte
string, and the payload, as a byte string. -/
def responseEntryBytes (e : Exchange) : List Nat :=
  encodeArrayHeader 2 ++
    encodeByteString (exchangeResponseHeaderBytes e) ++
    encodeByteString e.payload

/-- The responses section: a CBOR array header for the exchange count
(written by `newResponsesSection`), then the response entries. -/
def responsesSectionBytes (es : List Exchange) : List Nat :=
  encodeArrayHeader es.length ++ (es.map responseEntryBytes).flatten

/-- The `(offset, length)` ranges produced as each exchange is appended to
the responses section: `offset` is the section length so far. -/
def entryRanges (start : Nat) : List (List Nat) → List (Nat × Nat)
  | [] => []
  | b :: bs => (start, b.length) :: entryRanges (start + b.length) bs

/-- The index-section map entries (`indexSection.addExchange`): the request
key mapped to the 2-element `[offset, length]` array locating the response
inside the responses section. -/
def indexEntries (es : List Exchange) : List (List Nat × List Nat) :=
  List.zipWith
    (fun e r =>
      (exchangeRequestBytes e,
        encodeArrayHeader 2 ++ encodeUInt r.1 ++ encodeUInt r.2))
    es
    (entryRanges (encodeArrayHeader es.length).length
      (es.map responseEntryBytes))

/-- The finalized index section (`indexSection.Finalize`): a canonical CBOR
map over the index entries. -/
def indexSectionBytes (es : List Exchange) : List Nat :=
  encodeMapFromEntries (indexEntries es)

/-- A `(name, offset, length)` section-offset record (`sectionOffset` in
`bundle.go`). -/
structure SectionOffsetRec where
  name : List Nat
  offset : Nat
  length : Nat
deriving DecidableEq, Repr

/-- `sectionOffsets.AddSectionOrdered`: append a section whose offset is the
previous section's offset plus its length (0 for the first). -/
def addSectionOrdered (so : List SectionOffsetRec) (name : List Nat)
    (len : Nat) : List SectionOffsetRec :=
  let offset :=
    match so.getLast? with
    | some last => last.offset + last.length
    | none => 0
  so ++ [⟨name, offset, len⟩]

/-- The section-offsets table `WriteTo` builds: `index`, then
`responses`. -/
def bundleSectionOffsets (es : List Exchange) : List SectionOffsetRec :=
  addSectionOrdered
    (addSectionOrdered [] (str "index") (indexSectionBytes es).length)
    (str "responses") (responsesSectionBytes es).length

/-- `writeSectionOffsets`: the canonical CBOR map
`{ section-name → [offset, length] }`, wrapped in a CBOR byte string. -/
def sectionOffsetsBytes (so : List SectionOffsetRec) : List Nat :=
  encodeByteString
    (encodeMapFromEntries
      (so.map (fun e =>
        (encodeTextString e.name,
          encodeArrayHeader 2 ++ encodeUInt e.offset ++ encodeUInt e.length))))

/-- The fixed 10-byte bundle magic. -/
def headerMagicBytes : List Nat :=
  [0x84, 0x48, 0xf0, 0x9f, 0x8c, 0x90, 0xf0, 0x9f, 0x93, 0xa6]

/-- Everything `Bundle.WriteTo` emits before the footer: magic,
section-offsets byte string, section-count array header, index section,
responses section. -/
def bundlePre (es : List Exchange) : List Nat :=
  headerMagicBytes ++ sectionOffsetsBytes (bundleSectionOffsets es) ++
    encodeArrayHeader (bundleSectionOffsets es).length ++
    indexSectionBytes es ++ responsesSectionBytes es

/-- `writeFooter`: a CBOR byte string holding the 8-byte big-endian total
bundle size, where the total counts the bytes written so far plus the
9-byte footer itself. -/
def bundleFooter (es : List Exchange) : List Nat :=
  encodeByteString (beBytes 8 ((bundlePre es).length + 9))

/-- `Bundle.WriteTo` from `bundle.go`: the full byte image of the bundle. -/
def bundleWriteTo (es : List Exchange) : List Nat :=
  bundlePre es ++ bundleFooter es

/-- Modelled from the spec: the `cbor` decoder's header read — one initial
byte of the expected major type followed by a shortest-form argument,
rejecting non-minimal encodings; returns the argument and the remaining
bytes. -/
def cborReadHead (major : Nat) (bs : List Nat) :
    Except Err (Nat × List Nat) :=
  match bs with
  | [] => .error (.truncated (str "header"))
  | b :: rest =>
    if b / 32 ≠ major then .error (.cborDecode (str "major type"))
    else
      let ai := b % 32
      if ai < 24 then .ok (ai, rest)
      else if ai = 24 then
        match rest with
        | n :: r2 =>
          if n < 24 then .error (.cborDecode (str "minimal encoding"))
          else .ok (n, r2)
        | [] => .error (.truncated (str "argument"))
      else if ai = 25 then
        match rest with
        | n1 :: n2 :: r2 =>
          let n := n1 * 256 + n2
          if n < 256 then .error (.cborDecode (str "minimal encoding"))
          else .ok (n, r2)
        | _ => .error (.truncated (str "argument"))
      else if ai = 26 then
        match rest with
        | n1 :: n2 :: n3 :: n4 :: r2 =>
          let n := ((n1 * 256 + n2) * 256 + n3) * 256 + n4
          if n < 65536 then .error (.cborDecode (str "minimal encoding"))
          else .ok (n, r2)
        | _ => .error (.truncated (str "argument"))
      else if ai = 27 then
        match rest with
        | n1 :: n2 :: n3 :: n4 :: n5 :: n6 :: n7 :: n8 :: r2 =>
          let n := ((((((n1 * 256 + n2) * 256 + n3) * 256 + n4) * 256 + n5) *
            256 + n6) * 256 + n7) * 256 + n8
          if n < 4294967296 then .error (.cborDecode (str "minimal encoding"))
          else .ok (n, r2)
        | _ => .error (.truncated (str "argument"))
      else .error (.cborDecode (str "definite length"))

/-- Modelled from the spec: `cbor.Decoder.DecodeByteString` — a major-type-2
header, then that many content bytes. -/
def decodeByteString (bs : List Nat) : Except Err (List Nat × List Nat) := do
  let (n, rest) ← cborReadHead 2 bs
  if rest.length < n then .error (.truncated (str "byte string"))
  else .ok (rest.take n, rest.drop n)

/-- Modelled from the spec: `cbor.Decoder.DecodeTextString` — a
major-type-3 header, then that many content bytes. -/
def decodeTextString (bs : List Nat) : Except Err (List Nat × List Nat) := do
  let (n, rest) ← cborReadHead 3 bs
  if rest.length < n then .error (.truncated (str "text string"))
  else .ok (rest.take n, rest.drop n)

/-- Modelled from the spec: `cbor.Decoder.DecodeUInt`. -/
def decodeUIntD (bs : List Nat) : Except Err (Nat × List Nat) :=
  cborReadHead 0 bs

/-- One loop step of `decodeSectionOffsetsCBOR` in `bundle.go`: read a text
string name, reject duplicates, then a 2-element array of two unsigned
integers. -/
def decodeSectionOffsetsLoop :
    Nat → List SectionOffsetRec → List Nat →
      Except Err (List SectionOffsetRec)
  | 0, so, _ => .ok so
  | n + 1, so, bs => do
    let (name, r1) ← decodeTextString bs
    if (so.map SectionOffsetRec.name).contains name then
      .error (.duplicateSection name)
    else do
      let (m, r2) ← cborReadHead 4 r1
      if m ≠ 2 then .error (.cborDecode (str "array of length 2"))
      else do
        let (offset, r3) ← decodeUIntD r2
        let (length, r4) ← decodeUIntD r3
        decodeSectionOffsetsLoop n (so ++ [⟨name, offset, length⟩]) r4

/-- `decodeSectionOffsetsCBOR` from `bundle.go`: a map header, then that
many `name → [offset, length]` entries. -/
def decodeSectionOffsetsCBOR (bs : List Nat) :
    Except Err (List SectionOffsetRec) := do
  let (n, rest) ← cborReadHead 5 bs
  decodeSectionOffsetsLoop n [] rest

/-- The metadata record `loadMetadata` returns. -/
structure Meta where
  so : List SectionOffsetRec
  sectionsStart : Nat
deriving DecidableEq, Repr

/-- The section names `loadMetadata` knows (`knownSections` in
`bundle.go`). -/
def knownSections : List (List Nat) :=
  [str "index", str "responses"]

/-- Modelled from the spec: `parseIndexSection` is unfinished in the source
(its body is empty), so parsing the index contents is modelled as immediate
success. -/
def parseIndexSection (_sectionContents : List Nat) : Except Err Unit :=
  .ok ()

/-- The per-section validation loop of `loadMetadata` (step 12): skip
unknown sections and `responses`; for the rest, reject the section when
`bufferLength ≤ sectionsStart + offset` or
`bufferLength ≤ sectionsStart + offset + length`, then parse its
contents. -/
def checkSectionsLoop (bs : List Nat) (sectionsStart : Nat) :
    List SectionOffsetRec → Except Err Unit
  | [] => .ok ()
  | e :: es =>
    if ¬ knownSections.contains e.name then
      checkSectionsLoop bs sectionsStart es
    else if e.name = str "responses" then
      checkSectionsLoop bs sectionsStart es
    else
      let offset := sectionsStart + e.offset
      if bs.length ≤ offset then .error (.offsetOutOfRange e.name)
      else if bs.length ≤ offset + e.length then
        .error (.offsetOutOfRange e.name)
      else do
        let _ ← parseIndexSection ((bs.drop offset).take e.length)
        checkSectionsLoop bs sectionsStart es

/-- `loadMetadata` from `bundle.go`: check the 10-byte magic, decode the
section-offsets byte string, parse the section-offsets map, record
`sectionsStart = 12 + len(sectionOffsetsBytes)` (the content length without
the CBOR header), then validate each known metadata-bearing section. -/
def loadMetadata (bs : List Nat) : Except Err Meta := do
  if bs.length < 10 then .error (.truncated (str "magic"))
  else if bs.take 10 ≠ headerMagicBytes then .error .magicMismatch
  else do
    let (sobytes, _) ← decodeByteString (bs.drop 10)
    let so ← decodeSectionOffsetsCBOR sobytes
    let sectionsStart := 12 + sobytes.length
    let _ ← checkSectionsLoop bs sectionsStart so
    .ok { so := so, sectionsStart := sectionsStart }

theorem natDecAux_eq (fuel n : Nat) :
    natDecAux (fuel + 1) n =
      if n < 10 then [48 + n] else natDecAux fuel (n / 10) ++ [48 + n % 10] :=
  rfl

theorem natDec_length_three (n : Nat) (h1 : 100 ≤ n) (h2 : n ≤ 999) :
    (natDec n).length = 3 := by
  obtain ⟨m, rfl⟩ : ∃ m, n = m + 1 := ⟨n - 1, by omega⟩
  obtain ⟨k, hmk⟩ : ∃ k, m = k + 1 := ⟨m - 1, by omega⟩
  unfold natDec
  rw [natDecAux_eq, if_neg (by omega)]
  rw [natDecAux_eq, if_neg (by omega)]
  rw [hmk, natDecAux_eq, if_pos (by omega)]
  simp

theorem foldl_append_filter {α β : Type} (p : α → Bool) (f : α → β)
    (l : List α) (init : List β) :
    l.foldl (fun acc e => if p e then acc ++ [f e] else acc) init =
      init ++ (l.filter p).map f := by
  induction l generalizing init with
  | nil => simp
  | cons x xs ih =>
    simp only [List.foldl_cons, List.filter_cons]
    by_cases h : p x
    · rw [if_pos h, ih]
      simp [h]
    · rw [if_neg h, ih]
      simp [h]

/-- C5: for every `Input` with response status between 100 and 599 and every
filter, the map `encodeResponseHeader` emits (its entry list as built,
before the CBOR encoder's canonical reordering) begins with `:status`
mapped to the exact 3-character decimal of the status code, followed by one
entry per response header accepted by the filter, each with its key
lowercased (the value is the header's first stored value). -/
theorem c5_response_header_entries (i : Input) (accept : List Nat → Bool)
    (h1 : 100 ≤ i.responseStatus) (h2 : i.responseStatus ≤ 599) :
    responseHeaderEntries i accept =
      (encodeByteString (str ":status"),
        encodeByteString (goItoa i.responseStatus)) ::
        (i.responseHeader.filter (fun e => accept e.1)).map
          (fun e => (encodeByteString (lowerB e.1),
            encodeByteString (e.2.headD []))) ∧
    (goItoa i.responseStatus).length = 3 := by
  constructor
  · unfold responseHeaderEntries
    rw [foldl_append_filter]
    simp
  · unfold goItoa
    rw [if_neg (by omega)]
    apply natDec_length_three <;> omega

/-- Concrete instantiation input for the response-header claim. -/
def w5Input : Input :=
  { requestUri := str "https://example.com/"
    responseStatus := 200
    responseHeader := [(str "Content-Type", [str "text/html"])]
    payload := [] }

theorem c5_response_header_entries_witness :
    (goItoa w5Input.responseStatus).length = 3 ∧
      responseHeaderEntries w5Input (fun _ => true) =
        (encodeByteString (str ":status"),
          encodeByteString (goItoa w5Input.responseStatus)) ::
          (w5Input.responseHeader.filter (fun e => (fun _ => true) e.1)).map
            (fun e => (encodeByteString (lowerB e.1),
              encodeByteString (e.2.headD []))) :=
  ⟨(c5_response_header_entries w5Input (fun _ => true) (by decide)
      (by decide)).2,
   (c5_response_header_entries w5Input (fun _ => true) (by decide)
      (by decide)).1⟩

/-- C3: for every `Signer` and `Input` (with a 32-byte hash collaborator),
the signed message built by `serializeSignedMessage` is exactly 64 bytes of
0x20, the 13 ASCII bytes of `HTTP Exchange`, one zero byte, and the
canonical CBOR map binding `date` and `expires` to seconds-since-epoch
integers and `headers` to the 2-element canonical exchange-headers array,
with `certSha256` bound to the hash of the first certificate's DER exactly
when the certificate list is non-empty. -/
theorem c3_signed_message (h : List Nat → List Nat)
    (hlen : ∀ bs, (h bs).length = 32) (s : Signer) (i : Input) :
    serializeSignedMessage h s i =
      List.replicate 64 0x20 ++ str "HTTP Exchange" ++ [0] ++
        encodeMapFromEntries
          ((if s.certs = [] then []
            else [(encodeTextString (str "certSha256"),
                   encodeByteString (h (s.certs.headD [])))]) ++
           [(encodeTextString (str "date"), encodeInt s.date),
            (encodeTextString (str "expires"), encodeInt s.expires),
            (encodeTextString (str "headers"),
              encodeArrayHeader 2 ++ encodeCanonicalRequestBytes i ++
                encodeResponseHeaderBytes i (signedHeadersFilter i))]) ∧
    (str "HTTP Exchange").length = 13 := by
  constructor
  · by_cases hc : s.certs = []
    · have h0 : certSha256 h s = [] := by
        unfold certSha256
        rw [if_pos hc]
      unfold serializeSignedMessage encodeCanonicalExchangeHeadersBytes
      rw [h0, if_pos hc]
      simp
    · have h0 : certSha256 h s = h (s.certs.headD []) := by
        unfold certSha256
        rw [if_neg hc]
      unfold serializeSignedMessage encodeCanonicalExchangeHeadersBytes
      rw [h0, if_neg hc, if_pos (by rw [hlen]; omega)]
  · rfl

/-- Concrete instantiation signer for the signed-message claim. -/
def w3Signer : Signer :=
  { date := 1517418800
    expires := 1517422400
    certs := [[48, 130]]
    certUrl := str "https://example.com/cert.msg"
    privKey := .ecdsa (str "P-256") }

/-- Concrete instantiation input for the signed-message claim. -/
def w3Input : Input :=
  { requestUri := str "https://example.com/"
    responseStatus := 200
    responseHeader := []
    payload := [] }

theorem c3_signed_message_witness :
    serializeSignedMessage (fun _ => List.replicate 32 0) w3Signer w3Input =
      List.replicate 64 0x20 ++ str "HTTP Exchange" ++ [0] ++
        encodeMapFromEntries
          ((if w3Signer.certs = [] then []
            else [(encodeTextString (str "certSha256"),
                   encodeByteString ((fun _ => List.replicate 32 (0 : Nat))
                     (w3Signer.certs.headD [])))]) ++
           [(encodeTextString (str "date"), encodeInt w3Signer.date),
            (encodeTextString (str "expires"), encodeInt w3Signer.expires),
            (encodeTextString (str "headers"),
              encodeArrayHeader 2 ++ encodeCanonicalRequestBytes w3Input ++
                encodeResponseHeaderBytes w3Input
                  (signedHeadersFilter w3Input))]) :=
  (c3_signed_message (fun _ => List.replicate 32 0)
    (fun _ => by simp) w3Signer w3Input).1

/-- C10: for every `Signer` whose certificate list is empty, `certSha256`
returns an empty result, the signed preimage map omits the `certSha256`
entry, and (when the signing dispatch and the signing primitive succeed)
`SignatureHeaderValue` returns without error a value whose `certSha256=*`
parameter carries an empty base64 value. -/
theorem c10_empty_certs (h : List Nat → List Nat)
    (sigOracle : SigAlg → List Nat → Except Err (List Nat)) (s : Signer)
    (i : Input) (alg : SigAlg) (sg : List Nat)
    (hcerts : s.certs = [])
    (halg : signerForPrivateKey s.privKey = .ok alg)
    (hsig : sigOracle alg (serializeSignedMessage h s i) = .ok sg) :
    certSha256 h s = [] ∧
    serializeSignedMessage h s i =
      List.replicate 64 0x20 ++ str "HTTP Exchange" ++ [0] ++
        encodeMapFromEntries
          [(encodeTextString (str "date"), encodeInt s.date),
           (encodeTextString (str "expires"), encodeInt s.expires),
           (encodeTextString (str "headers"),
             encodeCanonicalExchangeHeadersBytes i)] ∧
    signatureHeaderValue h sigOracle s i =
      .ok (str "sig=*" ++ b64Std sg ++
        str "; integrity=\"mi\"; certUrl=\"" ++ s.certUrl ++
        str "\"; certSha256=*" ++ b64Std (certSha256 h s) ++
        str "; date=" ++ goItoa s.date ++
        str "; expires=" ++ goItoa s.expires) ∧
    b64Std (certSha256 h s) = [] := by
  have h0 : certSha256 h s = [] := by
    unfold certSha256
    rw [if_pos hcerts]
  refine ⟨h0, ?_, ?_, ?_⟩
  · unfold serializeSignedMessage
    rw [h0]
    simp
  · unfold signatureHeaderValue signerSign
    rw [halg]
    simp only [bind, Except.bind]
    rw [hsig]
  · rw [h0]
    rfl

/-- Concrete instantiation signer for the empty-certificate claim. -/
def w10Signer : Signer :=
  { date := 0
    expires := 3600
    certs := []
    certUrl := str "https://example.com/cert.msg"
    privKey := .ecdsa (str "P-256") }

theorem c10_empty_certs_witness :
    certSha256 (fun _ => List.replicate 32 0) w10Signer = [] ∧
      b64Std (certSha256 (fun _ => List.replicate 32 0) w10Signer) = [] :=
  ⟨(c10_empty_certs (fun _ => List.replicate 32 0) (fun _ _ => .ok [1])
      w10Signer w3Input (.ecdsaAlg (str "P-256") .sha256) [1] rfl rfl
      rfl).1,
   (c10_empty_certs (fun _ => List.replicate 32 0) (fun _ _ => .ok [1])
      w10Signer w3Input (.ecdsaAlg (str "P-256") .sha256) [1] rfl rfl
      rfl).2.2.2⟩

/-- Concrete signer showing the emitted `Signature` parameter list. -/
def c1Signer : Signer :=
  { date := 1517418800
    expires := 1517422400
    certs := []
    certUrl := str "https://example.com/cert.msg"
    privKey := .ecdsa (str "P-256") }

/-- Concrete input for the `Signature` header evaluation. -/
def c1Input : Input :=
  { requestUri := str "https://example.com/"
    responseStatus := 200
    responseHeader := []
    payload := [] }

/-- C1: the claim says `SignatureHeaderValue` emits the parameters in the
order `sig`, `validityUrl`, `integrity`, `certUrl`, `certSha256`, `date`,
`expires` with a `validityUrl="<url>"` parameter.  Evaluating the embedded
`SignatureHeaderValue` at a concrete signer and input shows the code emits
`sig`, `integrity`, `certUrl`, `certSha256`, `date`, `expires` and no
`validityUrl` parameter at all (the source line is `FIXME: validityURL`,
and the `Signer` record has no validityUrl field to begin with). -/
theorem c1_no_validity_url :
    signatureHeaderValue (fun _ => List.replicate 32 0) (fun _ _ => .ok [1])
        c1Signer c1Input =
      .ok (str "sig=*AQ; integrity=\"mi\"; certUrl=\"https://example.com/cert.msg\"; certSha256=*; date=1517418800; expires=1517422400") := by
  rfl

/-- C4: the signing-algorithm dispatch returns RSA-PSS with SHA-256 exactly
for RSA keys whose modulus is exactly 2048 bits and an unsupported-key-size
error for every other RSA modulus size; ECDSA P-256 keys get SHA-256 and
P-384 keys SHA-384 (the ECDSA signature serialization being the ASN.1 DER
SEQUENCE of the INTEGERs `r` and `s`); other curves fail with an
unknown-curve error and other key types with an unsupported-key error. -/
theorem c4_signing_dispatch :
    (∀ n, goBitLen n = 2048 →
      signerForPrivateKey (.rsa n) = .ok (.rsaPSS n .sha256)) ∧
    (∀ n, goBitLen n ≠ 2048 →
      signerForPrivateKey (.rsa n) =
        .error (.unsupportedKeySize (goBitLen n))) ∧
    signerForPrivateKey (.ecdsa (str "P-256")) =
      .ok (.ecdsaAlg (str "P-256") .sha256) ∧
    signerForPrivateKey (.ecdsa (str "P-384")) =
      .ok (.ecdsaAlg (str "P-384") .sha384) ∧
    (∀ name, name ≠ str "P-256" → name ≠ str "P-384" →
      signerForPrivateKey (.ecdsa name) = .error (.unknownCurve name)) ∧
    (∀ t, signerForPrivateKey (.other t) = .error (.unsupportedKey t)) ∧
    (∀ r s, ecdsaSignBytes r s = derSeq (derInt r ++ derInt s)) := by
  refine ⟨?_, ?_, ?_, ?_, ?_, ?_, ?_⟩
  · intro n hn
    simp [signerForPrivateKey, hn]
  · intro n hn
    simp [signerForPrivateKey, hn]
  · rfl
  · rfl
  · intro name h1 h2
    simp [signerForPrivateKey, h1, h2]
  · intro t
    rfl
  · intro r s
    rfl

theorem c4_signing_dispatch_witness :
    signerForPrivateKey (.rsa (2 ^ 2047)) =
        .ok (.rsaPSS (2 ^ 2047) .sha256) ∧
      signerForPrivateKey (.rsa (2 ^ 1023)) =
        .error (.unsupportedKeySize (goBitLen (2 ^ 1023))) ∧
      signerForPrivateKey (.ecdsa (str "secp256k1")) =
        .error (.unknownCurve (str "secp256k1")) ∧
      signerForPrivateKey (.other (str "ed25519")) =
        .error (.unsupportedKey (str "ed25519")) ∧
      ecdsaSignBytes 3 5 = derSeq (derInt 3 ++ derInt 5) :=
  ⟨c4_signing_dispatch.1 (2 ^ 2047) (by rw [goBitLen_two_pow]),
   c4_signing_dispatch.2.1 (2 ^ 1023) (by rw [goBitLen_two_pow]; omega),
   c4_signing_dispatch.2.2.2.2.1 (str "secp256k1") (by decide) (by decide),
   c4_signing_dispatch.2.2.2.2.2.1 (str "ed25519"),
   c4_signing_dispatch.2.2.2.2.2.2 3 5⟩

/-- C7: the claim says `loadMetadata` records
`sections_start = 10 + len(section-offsets byte string including its CBOR
header)`, i.e. the offset immediately following that byte string.  On a
buffer whose section-offsets byte string is the 2-byte item `0x41 0xa0`
(an empty map, 1 content byte), the offset following the byte string is
`10 + 2 = 12`, but the code computes `12 + content-length = 13`: the code
hard-codes a 2-byte byte-string header, contradicting the load-metadata
step it quotes (`sectionsStart` is "the current offset within stream"),
so the two agree only when the content length is 24–255. -/
theorem c7_sections_start_off_by_one :
    loadMetadata (headerMagicBytes ++ encodeByteString [0xa0]) =
        .ok { so := [], sectionsStart := 13 } ∧
      (encodeByteString [0xa0]).length = 2 ∧
      10 + (encodeByteString [0xa0]).length = 12 := by
  refine ⟨?_, rfl, rfl⟩
  rfl

/-- The section-offsets map content used for the range-check evaluation:
`{ "index" → [0, 2], "zzzzzzzzzzz" → [0, 0] }` (25 bytes, so the byte
string gets a 2-byte header and the claim's and the code's `sections_start`
agree at `12 + 25 = 37`). -/
def c8Content : List Nat :=
  [0xa2] ++ [0x65] ++ str "index" ++ [0x82, 0x00, 0x02] ++
    [0x6b] ++ str "zzzzzzzzzzz" ++ [0x82, 0x00, 0x00]

/-- A 39-byte bundle image whose `index` section ends exactly at the buffer
length: `sections_start + offset + length = 37 + 0 + 2 = 39 = len`. -/
def c8Input : List Nat :=
  headerMagicBytes ++ [0x58, 25] ++ c8Content ++ [0, 0]

/-- C8: the claim says the range validation accepts a known
metadata-bearing section exactly when
`sections_start + offset + length ≤ buffer length`, in particular that a
section ending exactly at the buffer length is accepted.  On `c8Input` the
`index` section satisfies `37 + 0 + 2 = 39 ≤ 39 = len`, yet `loadMetadata`
rejects it with an out-of-range error, because the code errors when
`len(bs) <= end` instead of `len(bs) < end` (and likewise for the start
offset), contradicting the seek-and-read steps it quotes; appending one
byte makes the same section acceptable. -/
theorem c8_range_check_strict :
    loadMetadata c8Input = .error (.offsetOutOfRange (str "index")) ∧
      c8Input.length = 39 ∧
      (12 + c8Content.length) + 0 + 2 ≤ c8Input.length ∧
      (loadMetadata (c8Input ++ [7])).isOk = true := by
  refine ⟨?_, rfl, by decide, ?_⟩ <;> rfl

theorem beBytes_length (k v : Nat) : (beBytes k v).length = k := by
  induction k generalizing v with
  | zero => rfl
  | succ k ih => simp [beBytes, ih]

theorem beValue_foldl (k v a : Nat) :
    (beBytes k v).foldl (fun x b => x * 256 + b) a =
      a * 256 ^ k + v % 256 ^ k := by
  induction k generalizing a with
  | zero => simp [beBytes, Nat.mod_one]
  | succ k ih =>
    simp only [beBytes, List.foldl_cons]
    rw [ih]
    have hm : v % 256 ^ (k + 1) = v % 256 ^ k + 256 ^ k * (v / 256 ^ k % 256) := by
      rw [pow_succ]
      exact Nat.mod_mul
    rw [hm]
    ring

theorem beValue_beBytes (k v : Nat) (h : v < 256 ^ k) :
    beValue (beBytes k v) = v := by
  unfold beValue
  rw [beValue_foldl]
  simp [Nat.mod_eq_of_lt h]

/-- C9: for every `Bundle`, `WriteTo` ends with a footer of exactly 9
bytes — a CBOR byte string holding the 8-byte big-endian count of all
bytes written including the footer itself, so the declared size reads back
as the whole output's length (whenever it fits 64 bits) — and the
section-offsets table records `index` at offset 0 with `responses` at
offset equal to the index section's length (each offset is the previous
offset plus the previous length). -/
theorem c9_bundle_layout (es : List Exchange) :
    bundleWriteTo es = bundlePre es ++ bundleFooter es ∧
    (bundleFooter es).length = 9 ∧
    bundleFooter es = 72 :: beBytes 8 ((bundleWriteTo es).length) ∧
    (∀ sz, sz < 256 ^ 8 → beValue (beBytes 8 sz) = sz) ∧
    bundleSectionOffsets es =
      [⟨str "index", 0, (indexSectionBytes es).length⟩,
       ⟨str "responses", (indexSectionBytes es).length,
        (responsesSectionBytes es).length⟩] := by
  have hlen9 : (bundleFooter es).length = 9 := by
    unfold bundleFooter encodeByteString
    rw [beBytes_length]
    simp [cborTypeHeader, beBytes_length]
  have hout : (bundleWriteTo es).length = (bundlePre es).length + 9 := by
    unfold bundleWriteTo
    rw [List.length_append, hlen9]
  refine ⟨rfl, hlen9, ?_, ?_, ?_⟩
  · rw [hout]
    unfold bundleFooter encodeByteString
    rw [beBytes_length]
    simp [cborTypeHeader]
  · intro sz hsz
    exact beValue_beBytes 8 sz hsz
  · unfold bundleSectionOffsets addSectionOrdered
    simp

theorem c9_bundle_layout_witness :
    bundleFooter [] = 72 :: beBytes 8 ((bundleWriteTo []).length) ∧
      beValue (beBytes 8 46) = 46 :=
  ⟨(c9_bundle_layout []).2.2.1, (c9_bundle_layout []).2.2.2.1 46 (by norm_num)⟩

/-- C2 counterexample: `NewInput` accepts a header map that already carries
a `Content-Encoding` header, and then the resulting input holds two
`Content-Encoding` header values (`gzip` and `mi-sha256`), not exactly
one. -/
theorem c2_two_content_encodings :
    (NewInput (fun _ => List.replicate 32 0) (str "https://example.com/")
        200 [(str "Content-Encoding", [str "gzip"])] [] 16).toOption.map
      (fun j => countCI j.responseHeader (str "Content-Encoding")) =
      some 2 := by
  rfl

/-- C2 (amended): for every uri, status, header map and payload accepted by
`NewInput`, provided the supplied header map carries no `Content-Encoding`
and no `MI` values, the returned input's payload holds the MICE-encoded
bytes of the supplied payload and its response headers contain exactly one
`Content-Encoding` header with value `mi-sha256` and exactly one `MI`
header holding the top-level digest value. -/
theorem c2_new_input_amended (h : List Nat → List Nat) (uri : List Nat)
    (status : Int) (headers : HeaderM) (payload : List Nat) (rs : Nat)
    (hrs : rs ≠ 0)
    (hce : countCI headers (str "Content-Encoding") = 0)
    (hmi : countCI headers (str "MI") = 0) :
    ∃ j, NewInput h uri status headers payload rs = .ok j ∧
      j.payload = miceEncodedBytes h payload rs ∧
      countCI j.responseHeader (str "Content-Encoding") = 1 ∧
      headerGet j.responseHeader (str "Content-Encoding") = str "mi-sha256" ∧
      countCI j.responseHeader (str "MI") = 1 ∧
      headerGet j.responseHeader (str "MI") = miValue h payload rs := by
  have henc : miceEncode h payload rs =
      .ok (miValue h payload rs, miceEncodedBytes h payload rs) := by
    unfold miceEncode
    rw [if_neg hrs]
  refine ⟨{ requestUri := uri
            responseStatus := status
            responseHeader :=
              headerAdd (headerAdd headers (str "Content-Encoding")
                (str "mi-sha256")) (str "MI") (miValue h payload rs)
            payload := miceEncodedBytes h payload rs },
    ?_, rfl, ?_, ?_, ?_, ?_⟩
  · unfold NewInput
    rw [henc]
    rfl
  · rw [countCI_headerAdd, countCI_headerAdd, hce]
    decide
  · rw [headerGet_headerAdd_other _ _ _ _ (by decide),
      headerGet_headerAdd _ _ _ hce]
  · rw [countCI_headerAdd, countCI_headerAdd, hmi]
    decide
  · apply headerGet_headerAdd
    rw [countCI_headerAdd, hmi]
    decide

theorem c2_new_input_amended_witness :
    ∃ j, NewInput (fun _ => List.replicate 32 0) (str "u") 200 [] [65, 66]
        16 = .ok j ∧
      j.payload = miceEncodedBytes (fun _ => List.replicate 32 0) [65, 66]
        16 ∧
      countCI j.responseHeader (str "Content-Encoding") = 1 ∧
      headerGet j.responseHeader (str "Content-Encoding") =
        str "mi-sha256" ∧
      countCI j.responseHeader (str "MI") = 1 ∧
      headerGet j.responseHeader (str "MI") =
        miValue (fun _ => List.replicate 32 0) [65, 66] 16 :=
  c2_new_input_amended (fun _ => List.replicate 32 0) (str "u") 200 []
    [65, 66] 16 (by decide) (by decide) (by decide)

theorem splitComma_ne_nil (l : List Nat) : splitComma l ≠ [] := by
  cases l with
  | nil => simp [splitComma]
  | cons c cs =>
    unfold splitComma
    cases h : splitComma cs with
    | nil => simp
    | cons t ts => by_cases hc : c = 44 <;> simp [hc]

theorem trimLeadQ_quote_cons (t : List Nat) : trimLeadQ (34 :: t) = t := rfl

theorem trimLeadQ_space_cons (t : List Nat) :
    trimLeadQ (32 :: t) = 32 :: t := rfl

theorem trimTrailQ_append_quote (l : List Nat) :
    trimTrailQ (l ++ [34]) = l := by
  unfold trimTrailQ
  rw [List.reverse_append]
  simp [trimLeadQ_quote_cons]

theorem splitComma_cons_ne (c : Nat) (l : List Nat) (hc : c ≠ 44)
    (t : List Nat) (ts : List (List Nat)) (h : splitComma l = t :: ts) :
    splitComma (c :: l) = (c :: t) :: ts := by
  unfold splitComma
  rw [h]
  simp [hc]

theorem splitComma_no_comma (x : List Nat) (hx : ¬ 44 ∈ x) :
    splitComma x = [x] := by
  induction x with
  | nil => rfl
  | cons c cs ih =>
    have hc : c ≠ 44 := by
      intro h
      exact hx (by simp [h])
    have hcs : ¬ 44 ∈ cs := by
      intro h
      exact hx (by simp [h])
    exact splitComma_cons_ne c cs hc cs [] (ih hcs)

theorem splitComma_append_comma (x y : List Nat) (hx : ¬ 44 ∈ x) :
    splitComma (x ++ 44 :: y) = x :: splitComma y := by
  induction x with
  | nil =>
    simp only [List.nil_append]
    cases h : splitComma y with
    | nil => exact absurd h (splitComma_ne_nil y)
    | cons t ts =>
      unfold splitComma
      rw [h]
      simp
  | cons c cs ih =>
    have hc : c ≠ 44 := by
      intro h
      exact hx (by simp [h])
    have hcs : ¬ 44 ∈ cs := by
      intro h
      exact hx (by simp [h])
    simp only [List.cons_append]
    exact splitComma_cons_ne c _ hc cs (splitComma y) (ih hcs)

theorem splitComma_joinCS (q : List Nat) (qs : List (List Nat))
    (hq : ¬ 44 ∈ q) (hqs : ∀ t ∈ qs, ¬ 44 ∈ t) :
    splitComma (joinCS (q :: qs)) = q :: qs.map (fun t => 32 :: t) := by
  induction qs generalizing q with
  | nil =>
    simp only [joinCS, List.map_nil]
    exact splitComma_no_comma q hq
  | cons q2 rest ih =>
    have hq2 : ¬ 44 ∈ q2 := hqs q2 (by simp)
    have hrest : ∀ t ∈ rest, ¬ 44 ∈ t := fun t ht => hqs t (by simp [ht])
    have ih2 := ih q2 hq2 hrest
    have hstep := splitComma_cons_ne 32 (joinCS (q2 :: rest)) (by omega)
      q2 (rest.map (fun t => 32 :: t)) ih2
    rw [show joinCS (q :: q2 :: rest) = q ++ 44 :: 32 :: joinCS (q2 :: rest)
      from rfl]
    rw [splitComma_append_comma _ _ hq, hstep]
    simp

theorem lowerN_eq_comma (c : Nat) : lowerN c = 44 ↔ c = 44 := by
  unfold lowerN
  split_ifs <;> omega

theorem comma_mem_lowerB (k : List Nat) : 44 ∈ lowerB k ↔ 44 ∈ k := by
  unfold lowerB
  simp only [List.mem_map]
  constructor
  · rintro ⟨c, hc, hl⟩
    rw [lowerN_eq_comma] at hl
    exact hl ▸ hc
  · intro h
    exact ⟨44, h, by rw [lowerN_eq_comma]⟩

theorem comma_not_mem_quoted (k : List Nat) (hk : ¬ 44 ∈ k) :
    ¬ 44 ∈ 34 :: (lowerB k ++ [34]) := by
  intro h
  simp only [List.mem_cons, List.mem_append, List.mem_singleton] at h
  rcases h with h | h | h
  · exact absurd h (by decide)
  · exact hk ((comma_mem_lowerB k).mp h)
  · exact absurd h (by decide)

/-- Concrete input for the signed-headers round-trip claim. -/
def c6Input : Input :=
  { requestUri := str "https://example.com/"
    responseStatus := 200
    responseHeader := []
    payload := [] }

/-- C6 counterexample: after `AddSignedHeadersHeader` writes the names
`a`, `b`, the parser returns `["a", " \"b"]` — the token after the comma
keeps its leading space and opening quote — not `["a", "b"]`: the parser
does not tolerate the whitespace that follows each comma. -/
theorem c6_whitespace_not_tolerated :
    parseSignedHeadersHeader
        (addSignedHeadersHeader c6Input [str "a", str "b"]) =
      [str "a", 32 :: 34 :: str "b"] ∧
    parseSignedHeadersHeader
        (addSignedHeadersHeader c6Input [str "a", str "b"]) ≠
      [str "a", str "b"] := by
  refine ⟨rfl, by decide⟩

/-- C6 (amended): for every non-empty list of comma-free header names
written by `AddSignedHeadersHeader` into a header map with no prior
`signed-headers` value, the parser returns the lowercased first name
exactly, but every later token keeps the space and the opening quote that
follow the comma (the parser strips only a leading and a trailing quote
character per token and does not strip whitespace, so only a one-name list
round-trips). -/
theorem c6_roundtrip_amended (i : Input) (k0 : List Nat)
    (rest : List (List Nat))
    (hsh : countCI i.responseHeader (str "signed-headers") = 0)
    (hcf : ∀ k ∈ k0 :: rest, ¬ 44 ∈ k) :
    parseSignedHeadersHeader (addSignedHeadersHeader i (k0 :: rest)) =
      lowerB k0 :: rest.map (fun k => 32 :: 34 :: lowerB k) := by
  have hv := headerGet_headerAdd i.responseHeader (str "signed-headers")
    (joinCS ((k0 :: rest).map (fun k => 34 :: (lowerB k ++ [34])))) hsh
  unfold parseSignedHeadersHeader addSignedHeadersHeader
  simp only []
  rw [hv]
  rw [List.map_cons]
  rw [splitComma_joinCS _ _
    (comma_not_mem_quoted k0 (hcf k0 (by simp)))
    (by
      intro t ht
      simp only [List.mem_map] at ht
      obtain ⟨k, hk, rfl⟩ := ht
      exact comma_not_mem_quoted k (hcf k (by simp [hk])))]
  rw [List.map_cons, List.map_map]
  congr 1
  · rw [trimLeadQ_quote_cons, trimTrailQ_append_quote]
  · rw [List.map_map]
    apply List.map_congr_left
    intro k _
    simp only [Function.comp]
    rw [trimLeadQ_space_cons]
    rw [show (32 : Nat) :: 34 :: (lowerB k ++ [34]) =
      (32 :: 34 :: lowerB k) ++ [34] by simp]
    rw [trimTrailQ_append_quote]

theorem c6_roundtrip_amended_witness :
    parseSignedHeadersHeader
        (addSignedHeadersHeader c6Input [str "Content-Type", str "MI"]) =
      lowerB (str "Content-Type") ::
        [str "MI"].map (fun k => 32 :: 34 :: lowerB k) :=
  c6_roundtrip_amended c6Input (str "Content-Type") [str "MI"] (by decide)
    (by decide)
